import Mathlib

/-!
Verification of the EventSystem repository (src/include/EventSystem.h) against
its natural-language specification.

The embedding models:
* `std::map` as an association list with strictly increasing keys (iteration in
  key order), with `mfind` / `minsert` / `merase` / `memplace` mirroring
  `find`, `operator[]=`, `erase`, `emplace`;
* `EventRegistry` (lines 58-262) as a record of the four fields
  `m_interfaceHandlers`, `m_callbackHandlers`, `m_handleToEventTypeMap`,
  `m_nextSubscriptionId`;
* handler objects and callbacks by numeric identities (`shared_ptr` equality is
  pointer identity; a weak reference is expired iff its target id is not alive,
  expressed by an `alive : Nat → Bool` environment at the moment of the call);
* the worker's scheduled-event queue (lines 445-498) with the
  `std::priority_queue` min-heap represented by its observable pop order, a
  list sorted by execution time.
-/

namespace EventSystem

abbrev TypeKey := Nat
abbrev Handle := Nat

/-- Lookup in an association-list map, first matching key (std::map::find). -/
def mfind {α : Type} (k : Nat) : List (Nat × α) → Option α
  | [] => none
  | (k', v) :: rest => if k = k' then some v else mfind k rest

/-- Sorted insert-or-assign (std::map `operator[] =` / insert_or_assign). -/
def minsert {α : Type} (k : Nat) (v : α) : List (Nat × α) → List (Nat × α)
  | [] => [(k, v)]
  | (k', v') :: rest =>
    if k < k' then (k, v) :: (k', v') :: rest
    else if k = k' then (k, v) :: rest
    else (k', v') :: minsert k v rest

/-- Erase a key (std::map::erase by key; keys are unique in a std::map). -/
def merase {α : Type} (k : Nat) : List (Nat × α) → List (Nat × α)
  | [] => []
  | (k', v') :: rest => if k' = k then merase k rest else (k', v') :: merase k rest

/-- std::map::emplace - insert only when the key is absent. -/
def memplace {α : Type} (k : Nat) (v : α) (l : List (Nat × α)) : List (Nat × α) :=
  if (mfind k l).isSome then l else minsert k v l

theorem mfind_minsert_self {α : Type} (k : Nat) (v : α) (l : List (Nat × α)) :
    mfind k (minsert k v l) = some v := by
  induction l with
  | nil => simp [minsert, mfind]
  | cons p rest ih =>
    obtain ⟨k', v'⟩ := p
    by_cases h1 : k < k'
    · simp [minsert, h1, mfind]
    · by_cases h2 : k = k'
      · simp [minsert, h1, h2, mfind]
      · simp [minsert, h1, h2, mfind, ih]

theorem mfind_minsert_ne {α : Type} {k k2 : Nat} (v : α) (l : List (Nat × α))
    (hne : k2 ≠ k) : mfind k2 (minsert k v l) = mfind k2 l := by
  induction l with
  | nil => simp [minsert, mfind, hne]
  | cons p rest ih =>
    obtain ⟨k', v'⟩ := p
    by_cases h1 : k < k'
    · simp [minsert, h1, mfind, hne]
    · by_cases h2 : k = k'
      · subst h2
        simp [minsert, h1, mfind, hne]
      · by_cases h3 : k2 = k'
        · simp [minsert, h1, h2, mfind, h3]
        · simp [minsert, h1, h2, mfind, h3, ih]

theorem mfind_merase_self {α : Type} (k : Nat) (l : List (Nat × α)) :
    mfind k (merase k l) = none := by
  induction l with
  | nil => simp [merase, mfind]
  | cons p rest ih =>
    obtain ⟨k', v'⟩ := p
    by_cases h : k' = k
    · simpa [merase, h] using ih
    · have : ¬ (k = k') := fun hh => h hh.symm
      simp [merase, h, mfind, this]
      simpa [merase] using ih

theorem mfind_merase_ne {α : Type} {k k2 : Nat} (l : List (Nat × α))
    (hne : k2 ≠ k) : mfind k2 (merase k l) = mfind k2 l := by
  induction l with
  | nil => simp [merase, mfind]
  | cons p rest ih =>
    obtain ⟨k', v'⟩ := p
    by_cases h : k' = k
    · subst h
      have : ¬ (k2 = k') := hne
      simp [merase, mfind, this]
      simpa [merase] using ih
    · by_cases h2 : k2 = k'
      · simp [merase, h, mfind, h2]
      · simp [merase, h, mfind, h2]
        simpa [merase] using ih

theorem merase_of_mfind_none {α : Type} {k : Nat} {l : List (Nat × α)}
    (h : mfind k l = none) : merase k l = l := by
  induction l with
  | nil => simp [merase]
  | cons p rest ih =>
    obtain ⟨k', v'⟩ := p
    by_cases h1 : k = k'
    · simp [mfind, h1] at h
    · have hr : mfind k rest = none := by simpa [mfind, h1] using h
      have : k' ≠ k := fun hh => h1 hh.symm
      simp [merase, this]
      simpa [merase] using ih hr

theorem merase_minsert_cancel {α : Type} {k : Nat} {v : α} {l : List (Nat × α)}
    (h : mfind k l = none) : merase k (minsert k v l) = l := by
  induction l with
  | nil => simp [minsert, merase]
  | cons p rest ih =>
    obtain ⟨k', v'⟩ := p
    by_cases h1 : k = k'
    · simp [mfind, h1] at h
    · have hr : mfind k rest = none := by simpa [mfind, h1] using h
      have hk'k : k' ≠ k := fun hh => h1 hh.symm
      by_cases h2 : k < k'
      · simp [minsert, h2, merase, hk'k]
        exact merase_of_mfind_none hr
      · simp [minsert, h2, h1, merase, hk'k]
        simpa [merase] using ih hr

theorem minsert_minsert_same {α : Type} (k : Nat) (v v' : α) (l : List (Nat × α)) :
    minsert k v (minsert k v' l) = minsert k v l := by
  induction l with
  | nil => simp [minsert]
  | cons p rest ih =>
    obtain ⟨k', w⟩ := p
    by_cases h1 : k < k'
    · simp [minsert, h1, lt_irrefl]
    · by_cases h2 : k = k'
      · simp [minsert, h1, h2, lt_irrefl]
      · simp [minsert, h1, h2, ih]

theorem minsert_append_of_lt {α : Type} {k : Nat} {l : List (Nat × α)}
    (hlt : ∀ p ∈ l, p.1 < k) (v : α) : minsert k v l = l ++ [(k, v)] := by
  induction l with
  | nil => simp [minsert]
  | cons p rest ih =>
    obtain ⟨k', w⟩ := p
    have hk' : k' < k := hlt (k', w) (List.mem_cons_self _ _)
    have h1 : ¬ k < k' := by omega
    have h2 : ¬ k = k' := by omega
    simp [minsert, h1, h2]
    exact ih (fun p hp => hlt p (List.mem_cons_of_mem _ hp))

theorem mfind_isSome_of_mem {α : Type} {h : Nat} {v : α} {l : List (Nat × α)}
    (hm : (h, v) ∈ l) : (mfind h l).isSome = true := by
  induction l with
  | nil => simp at hm
  | cons p rest ih =>
    obtain ⟨k', v'⟩ := p
    rcases List.mem_cons.mp hm with h1 | h1
    · have hk : h = k' := congrArg Prod.fst h1
      simp [mfind, hk]
    · by_cases h2 : h = k'
      · simp [mfind, h2]
      · simp [mfind, h2]
        exact ih h1

theorem exists_mem_of_mfind_isSome {α : Type} {h : Nat} {l : List (Nat × α)}
    (hm : (mfind h l).isSome = true) : ∃ v, (h, v) ∈ l := by
  induction l with
  | nil => simp [mfind] at hm
  | cons p rest ih =>
    obtain ⟨k', v'⟩ := p
    by_cases h2 : h = k'
    · exact ⟨v', by simp [h2]⟩
    · simp [mfind, h2] at hm
      obtain ⟨v, hv⟩ := ih hm
      exact ⟨v, List.mem_cons_of_mem _ hv⟩

/-- `struct InterfaceHandlers` (lines 245-249): the owned (`strongRefs`) and
observed (`weakRefs`) handler lists for one event type, in `push_back`
(insertion) order. Handler objects are modelled by their pointer identity. -/
structure InterfaceHandlers where
  strongRefs : List Nat
  weakRefs : List Nat
deriving Repr, DecidableEq

def InterfaceHandlers.empty : InterfaceHandlers := ⟨[], []⟩

/-- `class EventRegistry` state (lines 253-260): `m_interfaceHandlers`,
`m_callbackHandlers` (inner map ordered by handle, as a std::map iterates),
`m_handleToEventTypeMap`, `m_nextSubscriptionId`. Callback values (the
type-erasing wrappers built at line 120) are modelled by identity. -/
structure Registry where
  interfaceHandlers : List (TypeKey × InterfaceHandlers)
  callbackHandlers : List (TypeKey × List (Handle × Nat))
  handleToEventTypeMap : List (Handle × TypeKey)
  nextSubscriptionId : Nat
deriving Repr, DecidableEq

def Registry.empty : Registry := ⟨[], [], [], 0⟩

/-- `registerHandler<TEvent>(shared_ptr)` (lines 68-74):
`m_interfaceHandlers[eventType].strongRefs.push_back(handler)`. -/
def registerHandlerStrong (k : TypeKey) (h : Nat) (st : Registry) : Registry :=
  let g := (mfind k st.interfaceHandlers).getD InterfaceHandlers.empty
  { st with interfaceHandlers :=
      minsert k { g with strongRefs := g.strongRefs ++ [h] } st.interfaceHandlers }

/-- `registerWeakHandler<TEvent>` (lines 79-85):
`m_interfaceHandlers[eventType].weakRefs.push_back(handler)`. -/
def registerWeakHandler (k : TypeKey) (h : Nat) (st : Registry) : Registry :=
  let g := (mfind k st.interfaceHandlers).getD InterfaceHandlers.empty
  { st with interfaceHandlers :=
      minsert k { g with weakRefs := g.weakRefs ++ [h] } st.interfaceHandlers }

/-- `unregisterHandler<TEvent>(shared_ptr)` (lines 88-111): the erase-remove
idiom drops every strong entry equal to the handler, and every weak entry that
is expired or locks to the handler. `alive` tells whether a weak reference's
target still exists at the moment of the call. -/
def unregisterHandlerPtr (alive : Nat → Bool) (k : TypeKey) (h : Nat)
    (st : Registry) : Registry :=
  match mfind k st.interfaceHandlers with
  | none => st
  | some g =>
    let g' : InterfaceHandlers :=
      { strongRefs := g.strongRefs.filter (fun x => x ≠ h),
        weakRefs := g.weakRefs.filter (fun x => alive x && x ≠ h) }
    { st with interfaceHandlers := minsert k g' st.interfaceHandlers }

/-- Callback-overload `registerHandler<TEvent>(callback)` (lines 114-132):
allocate `handle = m_nextSubscriptionId++`, store the wrapper in
`m_callbackHandlers[eventType][handle]`, `emplace` into the reverse index,
return the handle. -/
def registerHandlerCallback (k : TypeKey) (c : Nat) (st : Registry) :
    Handle × Registry :=
  let handle := st.nextSubscriptionId
  let inner := (mfind k st.callbackHandlers).getD []
  (handle,
   { st with
       nextSubscriptionId := handle + 1
       callbackHandlers := minsert k (minsert handle c inner) st.callbackHandlers
       handleToEventTypeMap := memplace handle k st.handleToEventTypeMap })

/-- `unregisterHandler(SubscriptionHandle)` (lines 134-144): look the handle up
in the reverse index; if present, erase the callback entry (note
`m_callbackHandlers[eventType]` uses `operator[]`, creating an empty inner map
when absent) and the reverse-index entry; otherwise do nothing. -/
def unregisterHandler (h : Handle) (st : Registry) : Registry :=
  match mfind h st.handleToEventTypeMap with
  | none => st
  | some k =>
    let inner := (mfind k st.callbackHandlers).getD []
    { st with
        callbackHandlers := minsert k (merase h inner) st.callbackHandlers
        handleToEventTypeMap := merase h st.handleToEventTypeMap }

/-- The loop at lines 158-161: erase from `m` the key of every entry of
`inner`. -/
def meraseAll {α β : Type} (inner : List (Nat × β)) (m : List (Nat × α)) :
    List (Nat × α) :=
  inner.foldl (fun m p => merase p.1 m) m

/-- `unregisterAllHandlers<TEvent>` (lines 147-167): erase every reverse-index
entry whose handle appears in the event type's callback map, erase that
callback map, then erase the interface-handler group. -/
def unregisterAllHandlers (k : TypeKey) (st : Registry) : Registry :=
  let st1 :=
    match mfind k st.callbackHandlers with
    | some inner =>
      { st with
          handleToEventTypeMap := meraseAll inner st.handleToEventTypeMap
          callbackHandlers := merase k st.callbackHandlers }
    | none => st
  { st1 with interfaceHandlers := merase k st1.interfaceHandlers }

/-- One subscriber invocation performed by `dispatchEvent`'s three loops
(lines 227-241), tagged by group. -/
inductive Invocation
  | strong (h : Nat)
  | weak (h : Nat)
  | callback (c : Nat)
deriving Repr, DecidableEq

/-- Snapshot projections of the registry used by `dispatchEvent`
(lines 179-195): the owned list, the observed list, and the callback values in
handle (std::map key) order. -/
def strongPart (st : Registry) (k : TypeKey) : List Nat :=
  ((mfind k st.interfaceHandlers).getD InterfaceHandlers.empty).strongRefs

def weakPart (st : Registry) (k : TypeKey) : List Nat :=
  ((mfind k st.interfaceHandlers).getD InterfaceHandlers.empty).weakRefs

def callbackPart (st : Registry) (k : TypeKey) : List Nat :=
  ((mfind k st.callbackHandlers).getD []).map Prod.snd

/-- `dispatchEvent` (lines 170-242) invocation sequence: it snapshots the three
collections under the lock, then invokes all owned handlers, then every
observed handler whose weak reference still upgrades (expired ones are
skipped), then all callbacks, in that order. -/
def dispatchEvent (alive : Nat → Bool) (k : TypeKey) (st : Registry) :
    List Invocation :=
  (strongPart st k).map Invocation.strong
    ++ ((weakPart st k).filter alive).map Invocation.weak
    ++ (callbackPart st k).map Invocation.callback

/-- `dispatchEvent` including its (absent) effect on the registry: the function
reads copies under the lock and never writes back (lines 170-242 contain no
mutation of the member maps), so the registry component is returned unchanged. -/
def dispatchEventFull (alive : Nat → Bool) (k : TypeKey) (st : Registry) :
    List Invocation × Registry :=
  (dispatchEvent alive k st, st)

/-- One public mutating registry operation, for reasoning about arbitrary call
sequences. -/
inductive Op
  | regStrong (k : TypeKey) (h : Nat)
  | regWeak (k : TypeKey) (h : Nat)
  | unregPtr (alive : Nat → Bool) (k : TypeKey) (h : Nat)
  | regCallback (k : TypeKey) (c : Nat)
  | unregHandle (h : Handle)
  | unregAll (k : TypeKey)

def applyOp (st : Registry) : Op → Registry
  | .regStrong k h => registerHandlerStrong k h st
  | .regWeak k h => registerWeakHandler k h st
  | .unregPtr alive k h => unregisterHandlerPtr alive k h st
  | .regCallback k c => (registerHandlerCallback k c st).2
  | .unregHandle h => unregisterHandler h st
  | .unregAll k => unregisterAllHandlers k st

/-- The registry state after a sequence of operations starting from the empty
registry (every reachable state arises this way). -/
def applySeq (ops : List Op) : Registry :=
  ops.foldl applyOp Registry.empty

theorem mfind_meraseAll_of_none {α β : Type} {h : Nat} {m : List (Nat × α)}
    (inner : List (Nat × β)) (hm : mfind h m = none) :
    mfind h (meraseAll inner m) = none := by
  induction inner generalizing m with
  | nil => simpa [meraseAll] using hm
  | cons p rest ih =>
    show mfind h (meraseAll rest (merase p.1 m)) = none
    apply ih
    by_cases hp : h = p.1
    · subst hp
      exact mfind_merase_self p.1 m
    · rw [mfind_merase_ne m hp]
      exact hm

theorem mfind_meraseAll_of_not_mem {α β : Type} {h : Nat} {m : List (Nat × α)}
    {inner : List (Nat × β)} (hni : ∀ p ∈ inner, p.1 ≠ h) :
    mfind h (meraseAll inner m) = mfind h m := by
  induction inner generalizing m with
  | nil => simp [meraseAll]
  | cons p rest ih =>
    show mfind h (meraseAll rest (merase p.1 m)) = mfind h m
    rw [ih (fun q hq => hni q (List.mem_cons_of_mem _ hq))]
    exact mfind_merase_ne m fun hh =>
      hni p (List.mem_cons_self _ _) (hh ▸ rfl)

theorem mfind_meraseAll_of_mem {α β : Type} {h : Nat} {m : List (Nat × α)}
    {inner : List (Nat × β)} (hin : (mfind h inner).isSome = true) :
    mfind h (meraseAll inner m) = none := by
  induction inner generalizing m with
  | nil => simp [mfind] at hin
  | cons p rest ih =>
    obtain ⟨k', v'⟩ := p
    show mfind h (meraseAll rest (merase k' m)) = none
    by_cases hp : h = k'
    · subst hp
      exact mfind_meraseAll_of_none rest (mfind_merase_self h m)
    · simp [mfind, hp] at hin
      exact ih hin

/-- The bidirectional registry invariant together with handle freshness: every
reverse-index entry has a callback entry of the same event type, every callback
entry has a reverse-index entry of its type, and every stored handle is below
`m_nextSubscriptionId` (handles are never reused). -/
structure Inv (st : Registry) : Prop where
  rev_to_cb : ∀ h k, mfind h st.handleToEventTypeMap = some k →
    ∃ inner, mfind k st.callbackHandlers = some inner ∧
      (mfind h inner).isSome = true
  cb_to_rev : ∀ k inner, mfind k st.callbackHandlers = some inner →
    ∀ h, (mfind h inner).isSome = true →
      mfind h st.handleToEventTypeMap = some k
  cb_fresh : ∀ k inner, mfind k st.callbackHandlers = some inner →
    ∀ h, (mfind h inner).isSome = true → h < st.nextSubscriptionId

theorem Inv.rev_fresh {st : Registry} (hi : Inv st) {h : Handle} {k : TypeKey}
    (hrev : mfind h st.handleToEventTypeMap = some k) :
    h < st.nextSubscriptionId := by
  obtain ⟨inner, hcb, hin⟩ := hi.rev_to_cb h k hrev
  exact hi.cb_fresh k inner hcb h hin

theorem Inv.nid_not_in_rev {st : Registry} (hi : Inv st) :
    mfind st.nextSubscriptionId st.handleToEventTypeMap = none := by
  cases hfind : mfind st.nextSubscriptionId st.handleToEventTypeMap with
  | none => rfl
  | some k => exact absurd (hi.rev_fresh hfind) (lt_irrefl _)

theorem Inv.nid_not_in_inner {st : Registry} (hi : Inv st) (k : TypeKey) :
    mfind st.nextSubscriptionId ((mfind k st.callbackHandlers).getD []) =
      none := by
  cases hcb : mfind k st.callbackHandlers with
  | none => simp [mfind]
  | some inner =>
    cases hfind : mfind st.nextSubscriptionId inner with
    | none => simp [hfind]
    | some c =>
      have := hi.cb_fresh k inner hcb st.nextSubscriptionId (by simp [hfind])
      exact absurd this (lt_irrefl _)

theorem inv_registerHandlerStrong {st : Registry} (hi : Inv st)
    (k : TypeKey) (h : Nat) : Inv (registerHandlerStrong k h st) :=
  ⟨hi.rev_to_cb, hi.cb_to_rev, hi.cb_fresh⟩

theorem inv_registerWeakHandler {st : Registry} (hi : Inv st)
    (k : TypeKey) (h : Nat) : Inv (registerWeakHandler k h st) :=
  ⟨hi.rev_to_cb, hi.cb_to_rev, hi.cb_fresh⟩

theorem inv_unregisterHandlerPtr {st : Registry} (hi : Inv st)
    (alive : Nat → Bool) (k : TypeKey) (h : Nat) :
    Inv (unregisterHandlerPtr alive k h st) := by
  cases hfind : mfind k st.interfaceHandlers with
  | none => simpa [unregisterHandlerPtr, hfind] using hi
  | some g =>
    exact ⟨by simpa [unregisterHandlerPtr, hfind] using hi.rev_to_cb,
           by simpa [unregisterHandlerPtr, hfind] using hi.cb_to_rev,
           by simpa [unregisterHandlerPtr, hfind] using hi.cb_fresh⟩

theorem inv_registerHandlerCallback {st : Registry} (hi : Inv st)
    (k : TypeKey) (c : Nat) : Inv (registerHandlerCallback k c st).2 := by
  have hnone := hi.nid_not_in_rev
  have hemp : memplace st.nextSubscriptionId k st.handleToEventTypeMap =
      minsert st.nextSubscriptionId k st.handleToEventTypeMap := by
    simp [memplace, hnone]
  constructor
  · intro h k1 hrev'
    simp only [registerHandlerCallback, hemp] at hrev' ⊢
    by_cases hh : h = st.nextSubscriptionId
    · subst hh
      rw [mfind_minsert_self] at hrev'
      obtain rfl : k = k1 := Option.some.inj hrev'
      refine ⟨minsert st.nextSubscriptionId c
        ((mfind k st.callbackHandlers).getD []), ?_, ?_⟩
      · exact mfind_minsert_self _ _ _
      · simp [mfind_minsert_self]
    · rw [mfind_minsert_ne _ _ hh] at hrev'
      obtain ⟨inner0, hcb0, hin0⟩ := hi.rev_to_cb h k1 hrev'
      by_cases hk : k1 = k
      · subst hk
        refine ⟨minsert st.nextSubscriptionId c
          ((mfind k1 st.callbackHandlers).getD []), mfind_minsert_self _ _ _, ?_⟩
        rw [mfind_minsert_ne _ _ hh, hcb0]
        exact hin0
      · exact ⟨inner0, by rw [mfind_minsert_ne _ _ hk]; exact hcb0, hin0⟩
  · intro k1 inner1 hcb' h hin1
    simp only [registerHandlerCallback, hemp] at hcb' ⊢
    by_cases hk : k1 = k
    · subst hk
      rw [mfind_minsert_self] at hcb'
      obtain rfl := Option.some.inj hcb'
      by_cases hh : h = st.nextSubscriptionId
      · subst hh
        rw [mfind_minsert_self]
      · rw [mfind_minsert_ne _ _ hh] at hin1
        cases hcb0 : mfind k1 st.callbackHandlers with
        | none => simp [hcb0, mfind] at hin1
        | some inner0 =>
          rw [hcb0] at hin1
          have := hi.cb_to_rev k1 inner0 hcb0 h (by simpa using hin1)
          rw [mfind_minsert_ne _ _ hh]
          exact this
    · rw [mfind_minsert_ne _ _ hk] at hcb'
      have hrev := hi.cb_to_rev k1 inner1 hcb' h hin1
      have hh : h ≠ st.nextSubscriptionId :=
        Nat.ne_of_lt (hi.rev_fresh hrev)
      rw [mfind_minsert_ne _ _ hh]
      exact hrev
  · intro k1 inner1 hcb' h hin1
    simp only [registerHandlerCallback, hemp] at hcb' ⊢
    by_cases hk : k1 = k
    · subst hk
      rw [mfind_minsert_self] at hcb'
      obtain rfl := Option.some.inj hcb'
      by_cases hh : h = st.nextSubscriptionId
      · omega
      · rw [mfind_minsert_ne _ _ hh] at hin1
        cases hcb0 : mfind k1 st.callbackHandlers with
        | none => simp [hcb0, mfind] at hin1
        | some inner0 =>
          rw [hcb0] at hin1
          have := hi.cb_fresh k1 inner0 hcb0 h (by simpa using hin1)
          omega
    · rw [mfind_minsert_ne _ _ hk] at hcb'
      have := hi.cb_fresh k1 inner1 hcb' h hin1
      omega

theorem inv_unregisterHandler {st : Registry} (hi : Inv st) (h : Handle) :
    Inv (unregisterHandler h st) := by
  cases hrev : mfind h st.handleToEventTypeMap with
  | none => simpa [unregisterHandler, hrev] using hi
  | some k =>
    obtain ⟨inner0, hcb0, hin0⟩ := hi.rev_to_cb h k hrev
    constructor
    · intro h1 k1 hrev'
      simp only [unregisterHandler, hrev, hcb0, Option.getD_some] at hrev' ⊢
      have hh1 : h1 ≠ h := by
        intro hh
        rw [hh, mfind_merase_self] at hrev'
        exact Option.noConfusion hrev'
      rw [mfind_merase_ne _ hh1] at hrev'
      obtain ⟨inner1, hcb1, hin1⟩ := hi.rev_to_cb h1 k1 hrev'
      by_cases hk : k1 = k
      · subst hk
        obtain rfl : inner0 = inner1 := by
          rw [hcb0] at hcb1
          exact Option.some.inj hcb1
        refine ⟨merase h inner0, mfind_minsert_self _ _ _, ?_⟩
        rw [mfind_merase_ne _ hh1]
        exact hin1
      · exact ⟨inner1, by rw [mfind_minsert_ne _ _ hk]; exact hcb1, hin1⟩
    · intro k1 inner1 hcb' h1 hin1
      simp only [unregisterHandler, hrev, hcb0, Option.getD_some] at hcb' ⊢
      by_cases hk : k1 = k
      · subst hk
        rw [mfind_minsert_self] at hcb'
        obtain rfl := Option.some.inj hcb'
        have hh1 : h1 ≠ h := by
          intro hh
          rw [hh, mfind_merase_self] at hin1
          simp at hin1
        rw [mfind_merase_ne _ hh1] at hin1
        have := hi.cb_to_rev k1 inner0 hcb0 h1 hin1
        rw [mfind_merase_ne _ hh1]
        exact this
      · rw [mfind_minsert_ne _ _ hk] at hcb'
        have hrev1 := hi.cb_to_rev k1 inner1 hcb' h1 hin1
        have hh1 : h1 ≠ h := by
          intro hh
          rw [hh, hrev] at hrev1
          exact hk (Option.some.inj hrev1).symm
        rw [mfind_merase_ne _ hh1]
        exact hrev1
    · intro k1 inner1 hcb' h1 hin1
      simp only [unregisterHandler, hrev, hcb0, Option.getD_some] at hcb' ⊢
      by_cases hk : k1 = k
      · subst hk
        rw [mfind_minsert_self] at hcb'
        obtain rfl := Option.some.inj hcb'
        have hh1 : h1 ≠ h := by
          intro hh
          rw [hh, mfind_merase_self] at hin1
          simp at hin1
        rw [mfind_merase_ne _ hh1] at hin1
        exact hi.cb_fresh k1 inner0 hcb0 h1 hin1
      · rw [mfind_minsert_ne _ _ hk] at hcb'
        exact hi.cb_fresh k1 inner1 hcb' h1 hin1

theorem inv_unregisterAllHandlers {st : Registry} (hi : Inv st) (k : TypeKey) :
    Inv (unregisterAllHandlers k st) := by
  cases hcb : mfind k st.callbackHandlers with
  | none =>
    exact ⟨by simpa [unregisterAllHandlers, hcb] using hi.rev_to_cb,
           by simpa [unregisterAllHandlers, hcb] using hi.cb_to_rev,
           by simpa [unregisterAllHandlers, hcb] using hi.cb_fresh⟩
  | some inner =>
    constructor
    · intro h1 k1 hrev'
      simp only [unregisterAllHandlers, hcb] at hrev' ⊢
      have hni : (mfind h1 inner).isSome = false := by
        cases hs : (mfind h1 inner).isSome with
        | false => rfl
        | true =>
          rw [mfind_meraseAll_of_mem hs] at hrev'
          exact Option.noConfusion hrev'
      have hnm : ∀ p ∈ inner, p.1 ≠ h1 := by
        intro p hp hq
        have : (mfind h1 inner).isSome = true := by
          have : (p.1, p.2) ∈ inner := hp
          rw [hq] at this
          exact mfind_isSome_of_mem this
        rw [this] at hni
        exact Bool.noConfusion hni
      rw [mfind_meraseAll_of_not_mem hnm] at hrev'
      obtain ⟨inner1, hcb1, hin1⟩ := hi.rev_to_cb h1 k1 hrev'
      have hk : k1 ≠ k := by
        intro hh
        rw [hh, hcb] at hcb1
        obtain rfl := Option.some.inj hcb1
        rw [hin1] at hni
        exact Bool.noConfusion hni
      exact ⟨inner1, by rw [mfind_merase_ne _ hk]; exact hcb1, hin1⟩
    · intro k1 inner1 hcb' h1 hin1
      simp only [unregisterAllHandlers, hcb] at hcb' ⊢
      have hk : k1 ≠ k := by
        intro hh
        rw [hh, mfind_merase_self] at hcb'
        exact Option.noConfusion hcb'
      rw [mfind_merase_ne _ hk] at hcb'
      have hrev1 := hi.cb_to_rev k1 inner1 hcb' h1 hin1
      have hnm : ∀ p ∈ inner, p.1 ≠ h1 := by
        intro p hp hq
        have hmem : (mfind h1 inner).isSome = true := by
          have : (p.1, p.2) ∈ inner := hp
          rw [hq] at this
          exact mfind_isSome_of_mem this
        have := hi.cb_to_rev k inner hcb h1 hmem
        rw [hrev1] at this
        exact hk (Option.some.inj this)
      rw [mfind_meraseAll_of_not_mem hnm]
      exact hrev1
    · intro k1 inner1 hcb' h1 hin1
      simp only [unregisterAllHandlers, hcb] at hcb' ⊢
      have hk : k1 ≠ k := by
        intro hh
        rw [hh, mfind_merase_self] at hcb'
        exact Option.noConfusion hcb'
      rw [mfind_merase_ne _ hk] at hcb'
      exact hi.cb_fresh k1 inner1 hcb' h1 hin1

theorem inv_empty : Inv Registry.empty := by
  constructor
  · intro h k hh
    simp [Registry.empty, mfind] at hh
  · intro k inner hh
    simp [Registry.empty, mfind] at hh
  · intro k inner hh
    simp [Registry.empty, mfind] at hh

theorem inv_applyOp {st : Registry} (hi : Inv st) (op : Op) :
    Inv (applyOp st op) := by
  cases op with
  | regStrong k h => exact inv_registerHandlerStrong hi k h
  | regWeak k h => exact inv_registerWeakHandler hi k h
  | unregPtr alive k h => exact inv_unregisterHandlerPtr hi alive k h
  | regCallback k c => exact inv_registerHandlerCallback hi k c
  | unregHandle h => exact inv_unregisterHandler hi h
  | unregAll k => exact inv_unregisterAllHandlers hi k

theorem inv_foldl {st : Registry} (hi : Inv st) (ops : List Op) :
    Inv (ops.foldl applyOp st) := by
  induction ops generalizing st with
  | nil => exact hi
  | cons op rest ih => exact ih (inv_applyOp hi op)

theorem inv_applySeq (ops : List Op) : Inv (applySeq ops) :=
  inv_foldl inv_empty ops

/-- Bidirectional consistency of `m_handleToEventTypeMap` and
`m_callbackHandlers`: every reverse-index entry has a callback entry at its
handle under its event type, and every callback entry is reverse-indexed. -/
def BidirConsistent (st : Registry) : Prop :=
  (∀ h k, mfind h st.handleToEventTypeMap = some k →
     ∃ inner, mfind k st.callbackHandlers = some inner ∧
       (mfind h inner).isSome = true) ∧
  (∀ k inner, mfind k st.callbackHandlers = some inner →
     ∀ h, (mfind h inner).isSome = true →
       mfind h st.handleToEventTypeMap = some k)

/-- Claim C1: after any sequence of registry operations starting from the empty
registry (in particular any sequence of callback registrations, handle
unregistrations and per-type sweeps), the reverse index and the callback maps
are bidirectionally consistent: each indexed handle has a callback entry under
its event type, and each callback entry is indexed at its handle. -/
theorem registry_bidirectional_consistency (ops : List Op) :
    BidirConsistent (applySeq ops) :=
  ⟨(inv_applySeq ops).rev_to_cb, (inv_applySeq ops).cb_to_rev⟩

theorem registry_bidirectional_consistency_witness :
    BidirConsistent (applySeq
      [Op.regCallback 0 5, Op.regCallback 1 7, Op.unregHandle 0,
       Op.regCallback 0 9, Op.unregAll 1]) :=
  registry_bidirectional_consistency
    [Op.regCallback 0 5, Op.regCallback 1 7, Op.unregHandle 0,
     Op.regCallback 0 9, Op.unregAll 1]

/-- The observable callback-subscriber collection of one event type: the
entries of its callback map, empty when the type has no map (an event type
whose inner map is empty and one with no inner map dispatch identically). -/
def callbackSubscribers (st : Registry) (k : TypeKey) : List (Handle × Nat) :=
  (mfind k st.callbackHandlers).getD []

theorem unregisterHandler_eq_of_some {st : Registry} {h : Handle} {k : TypeKey}
    (hrev : mfind h st.handleToEventTypeMap = some k) :
    unregisterHandler h st =
      { st with
          callbackHandlers :=
            minsert k (merase h ((mfind k st.callbackHandlers).getD []))
              st.callbackHandlers
          handleToEventTypeMap := merase h st.handleToEventTypeMap } := by
  simp [unregisterHandler, hrev]

theorem registerHandlerCallback_snd_eq (st : Registry) (k : TypeKey) (c : Nat)
    (hrevN : mfind st.nextSubscriptionId st.handleToEventTypeMap = none) :
    (registerHandlerCallback k c st).2 =
      { st with
          nextSubscriptionId := st.nextSubscriptionId + 1
          callbackHandlers :=
            minsert k (minsert st.nextSubscriptionId c
              ((mfind k st.callbackHandlers).getD [])) st.callbackHandlers
          handleToEventTypeMap :=
            minsert st.nextSubscriptionId k st.handleToEventTypeMap } := by
  simp [registerHandlerCallback, memplace, hrevN]

/-- The register-then-unregister round trip: registering a callback and
unregistering the returned handle restores the observable subscriber sets
(all per-type callback collections, the whole reverse index, and the
interface-handler lists) to their prior values; while registered, the entry is
stored at the returned handle; a second unregister of the same handle is a
no-op. -/
def RegisterUnregisterRoundTrip (st : Registry) (k : TypeKey) (c : Nat) :
    Prop :=
  mfind (registerHandlerCallback k c st).1
      (callbackSubscribers (registerHandlerCallback k c st).2 k) = some c ∧
  mfind (registerHandlerCallback k c st).1
      (registerHandlerCallback k c st).2.handleToEventTypeMap = some k ∧
  (∀ k2, callbackSubscribers
      (unregisterHandler (registerHandlerCallback k c st).1
        (registerHandlerCallback k c st).2) k2 = callbackSubscribers st k2) ∧
  (unregisterHandler (registerHandlerCallback k c st).1
      (registerHandlerCallback k c st).2).handleToEventTypeMap =
    st.handleToEventTypeMap ∧
  (unregisterHandler (registerHandlerCallback k c st).1
      (registerHandlerCallback k c st).2).interfaceHandlers =
    st.interfaceHandlers ∧
  unregisterHandler (registerHandlerCallback k c st).1
      (unregisterHandler (registerHandlerCallback k c st).1
        (registerHandlerCallback k c st).2) =
    unregisterHandler (registerHandlerCallback k c st).1
      (registerHandlerCallback k c st).2

/-- Unregistering a handle with no reverse-index entry (one never issued, or
already unregistered) leaves the registry completely unchanged. -/
def UnknownHandleNoOp (st : Registry) : Prop :=
  ∀ h, mfind h st.handleToEventTypeMap = none → unregisterHandler h st = st

theorem unknownHandleNoOp_all (st : Registry) : UnknownHandleNoOp st := by
  intro h hh
  simp [unregisterHandler, hh]

theorem roundTrip_of_inv {st : Registry} (hi : Inv st) (k : TypeKey)
    (c : Nat) : RegisterUnregisterRoundTrip st k c := by
  have hrevN := hi.nid_not_in_rev
  have hinnN := hi.nid_not_in_inner k
  have hfst : (registerHandlerCallback k c st).1 = st.nextSubscriptionId := rfl
  have hsnd := registerHandlerCallback_snd_eq st k c hrevN
  have hrev1 : mfind st.nextSubscriptionId
      (registerHandlerCallback k c st).2.handleToEventTypeMap = some k := by
    rw [hsnd]
    exact mfind_minsert_self _ _ _
  have hcb1 : mfind k (registerHandlerCallback k c st).2.callbackHandlers =
      some (minsert st.nextSubscriptionId c
        ((mfind k st.callbackHandlers).getD [])) := by
    rw [hsnd]
    exact mfind_minsert_self _ _ _
  have hunreg := unregisterHandler_eq_of_some hrev1
  have hcancel : merase st.nextSubscriptionId
      (minsert st.nextSubscriptionId c
        ((mfind k st.callbackHandlers).getD [])) =
      (mfind k st.callbackHandlers).getD [] :=
    merase_minsert_cancel hinnN
  have hcb2 : (unregisterHandler st.nextSubscriptionId
      (registerHandlerCallback k c st).2).callbackHandlers =
      minsert k ((mfind k st.callbackHandlers).getD [])
        st.callbackHandlers := by
    rw [hunreg]
    show minsert k (merase st.nextSubscriptionId
        ((mfind k (registerHandlerCallback k c st).2.callbackHandlers).getD []))
        (registerHandlerCallback k c st).2.callbackHandlers = _
    rw [hcb1, hsnd]
    show minsert k (merase st.nextSubscriptionId
        (minsert st.nextSubscriptionId c
          ((mfind k st.callbackHandlers).getD []))) _ = _
    rw [hcancel, minsert_minsert_same]
  have hrev2 : (unregisterHandler st.nextSubscriptionId
      (registerHandlerCallback k c st).2).handleToEventTypeMap =
      st.handleToEventTypeMap := by
    rw [hunreg]
    show merase st.nextSubscriptionId
        (registerHandlerCallback k c st).2.handleToEventTypeMap = _
    rw [hsnd]
    exact merase_minsert_cancel hrevN
  refine ⟨?_, ?_, ?_, ?_, ?_, ?_⟩
  · rw [hfst]
    simp only [callbackSubscribers, hcb1, Option.getD_some]
    exact mfind_minsert_self _ _ _
  · rw [hfst]
    exact hrev1
  · intro k2
    rw [hfst]
    simp only [callbackSubscribers, hcb2]
    by_cases hk : k2 = k
    · subst hk
      rw [mfind_minsert_self]
      rfl
    · rw [mfind_minsert_ne _ _ hk]
  · rw [hfst]
    exact hrev2
  · rw [hfst, hunreg, hsnd]
  · rw [hfst]
    apply unknownHandleNoOp_all
    rw [hrev2]
    exact hrevN

/-- Claim C2: on every reachable registry state, registering a callback stores
its entry at the returned handle, and unregistering that handle removes
exactly that entry and its reverse-index entry, restoring the observable
subscriber sets; afterwards, and for any handle with no reverse-index entry,
`unregisterHandler` is a silent no-op leaving the registry unchanged. -/
theorem register_unregister_round_trip (ops : List Op) (k : TypeKey)
    (c : Nat) :
    RegisterUnregisterRoundTrip (applySeq ops) k c ∧
      UnknownHandleNoOp (applySeq ops) :=
  ⟨roundTrip_of_inv (inv_applySeq ops) k c, unknownHandleNoOp_all _⟩

theorem register_unregister_round_trip_witness :
    RegisterUnregisterRoundTrip (applySeq [Op.regCallback 2 5]) 2 11 ∧
      UnknownHandleNoOp (applySeq [Op.regCallback 2 5]) :=
  register_unregister_round_trip [Op.regCallback 2 5] 2 11

/-- The handles currently stored in one event type's callback map, in map
(iteration) order. -/
def callbackHandles (st : Registry) (k : TypeKey) : List Handle :=
  (callbackSubscribers st k).map Prod.fst

theorem inner_lt_nid {st : Registry} (hi : Inv st) (k : TypeKey) :
    ∀ p ∈ (mfind k st.callbackHandlers).getD [], p.1 < st.nextSubscriptionId := by
  intro p hp
  cases hcb : mfind k st.callbackHandlers with
  | none =>
    rw [hcb] at hp
    simp at hp
  | some inner =>
    rw [hcb] at hp
    refine hi.cb_fresh k inner hcb p.1 (mfind_isSome_of_mem (v := p.2) ?_)
    simpa using hp

/-- Order of subscriber invocation for a dispatch, and the way each
registration extends its group: a dispatch invokes the owned group, then the
observed group (expired references filtered out), then the callback group, in
stored order; each registration of any flavor appends its subscriber at the
tail of its group's stored list; and the handle returned by a callback
registration is strictly greater than every handle already stored for that
event type (so the handle-ordered callback map preserves insertion order). -/
def DispatchOrderSpec (ops : List Op) (alive : Nat → Bool) (k : TypeKey)
    (h c : Nat) : Prop :=
  dispatchEvent alive k (applySeq ops) =
      (strongPart (applySeq ops) k).map Invocation.strong
        ++ ((weakPart (applySeq ops) k).filter alive).map Invocation.weak
        ++ (callbackPart (applySeq ops) k).map Invocation.callback ∧
  strongPart (registerHandlerStrong k h (applySeq ops)) k =
      strongPart (applySeq ops) k ++ [h] ∧
  weakPart (registerWeakHandler k h (applySeq ops)) k =
      weakPart (applySeq ops) k ++ [h] ∧
  callbackPart ((registerHandlerCallback k c (applySeq ops)).2) k =
      callbackPart (applySeq ops) k ++ [c] ∧
  (∀ h2 ∈ callbackHandles (applySeq ops) k,
      h2 < (registerHandlerCallback k c (applySeq ops)).1)

/-- Claim C3: dispatch invokes owned handlers, then observed handlers, then
callbacks; within each group the snapshot preserves insertion (registration)
order, because every registration appends at the tail of its group — for the
callback group this relies on handles issued later comparing greater than all
stored handles, which holds on every reachable state. -/
theorem dispatch_invocation_order (ops : List Op) (alive : Nat → Bool)
    (k : TypeKey) (h c : Nat) : DispatchOrderSpec ops alive k h c := by
  have hi := inv_applySeq ops
  refine ⟨rfl, ?_, ?_, ?_, ?_⟩
  · simp [registerHandlerStrong, strongPart, mfind_minsert_self]
  · simp [registerWeakHandler, weakPart, mfind_minsert_self]
  · have happ := minsert_append_of_lt (inner_lt_nid hi k) c
    have hsnd := registerHandlerCallback_snd_eq
      (applySeq ops) k c hi.nid_not_in_rev
    rw [callbackPart, hsnd]
    show ((mfind k (minsert k (minsert (applySeq ops).nextSubscriptionId c
        ((mfind k (applySeq ops).callbackHandlers).getD []))
        (applySeq ops).callbackHandlers)).getD []).map Prod.snd = _
    rw [mfind_minsert_self, Option.getD_some, happ]
    simp [callbackPart]
  · intro h2 hh2
    obtain ⟨p, hp, hph⟩ := List.mem_map.mp hh2
    have := inner_lt_nid hi k p hp
    rw [hph] at this
    exact this

theorem dispatch_invocation_order_witness :
    DispatchOrderSpec [Op.regCallback 3 5, Op.regStrong 3 8]
      (fun _ => true) 3 6 7 :=
  dispatch_invocation_order [Op.regCallback 3 5, Op.regStrong 3 8]
    (fun _ => true) 3 6 7

/-- A failure raised by subscriber code: a `std::exception` with a message
(first catch arm, line 216) or any other thrown value (the `catch (...)` arm,
line 220). -/
inductive Fault
  | stdExc (msg : String)
  | unknown
deriving Repr, DecidableEq

/-- State threaded through a dispatch: the user-visible state `user` mutated
by subscriber side effects, plus the diagnostic sink (the std::cerr lines). -/
structure DispatchState (σ : Type) where
  user : σ
  sink : List String

/-- The line `safeInvoke` writes to the diagnostic sink for a caught failure
(lines 218 and 222). -/
def faultMsg (label : String) : Fault → String
  | .stdExc m => "[EventSystem] Exception in " ++ label ++ ": " ++ m
  | .unknown => "[EventSystem] Unknown exception in " ++ label ++ "."

/-- `safeInvoke` (lines 199-224): run one subscriber action; any failure it
raises is caught at this boundary, logged, and swallowed. An action maps the
user state to the state after its side effects together with the failure it
raised, if any; `safeInvoke` always returns normally (its result type carries
no failure). The 500 ms latency watchdog (lines 207-214) is observational
only and is not modelled. -/
def safeInvoke {σ : Type} (label : String) (action : σ → σ × Option Fault)
    (s : DispatchState σ) : DispatchState σ :=
  match action s.user with
  | (u', none) => { s with user := u' }
  | (u', some f) => { user := u', sink := s.sink ++ [faultMsg label f] }

/-- The three invocation loops of `dispatchEvent` (lines 227-241): every
subscriber of the snapshot is passed through `safeInvoke` in turn. -/
def runHandlers {σ : Type} (hs : List (String × (σ → σ × Option Fault)))
    (s : DispatchState σ) : DispatchState σ :=
  hs.foldl (fun s h => safeInvoke h.1 h.2 s) s

/-- A recording subscriber: appends its identity to the shared list, then
raises the given failure (or none). -/
def recAct (i : Nat) (f : Option Fault) : List Nat → List Nat × Option Fault :=
  fun l => (l ++ [i], f)

theorem runHandlers_cons {σ : Type} (hd : String × (σ → σ × Option Fault))
    (rest : List (String × (σ → σ × Option Fault))) (s : DispatchState σ) :
    runHandlers (hd :: rest) s = runHandlers rest (safeInvoke hd.1 hd.2 s) :=
  rfl

theorem runHandlers_user_all (label : String)
    (pairs : List (Nat × Option Fault)) :
    ∀ (init : List Nat) (sink : List String),
    (runHandlers (pairs.map fun p => (label, recAct p.1 p.2))
        ⟨init, sink⟩).user = init ++ pairs.map Prod.fst := by
  induction pairs with
  | nil =>
    intro init sink
    simp [runHandlers]
  | cons p rest ih =>
    intro init sink
    obtain ⟨i, f⟩ := p
    rw [List.map_cons, runHandlers_cons]
    cases f with
    | none =>
      have hstep : safeInvoke label (recAct i none)
          (⟨init, sink⟩ : DispatchState (List Nat)) = ⟨init ++ [i], sink⟩ :=
        rfl
      rw [hstep, ih]
      simp
    | some fl =>
      have hstep : safeInvoke label (recAct i (some fl))
          (⟨init, sink⟩ : DispatchState (List Nat)) =
          ⟨init ++ [i], sink ++ [faultMsg label fl]⟩ := rfl
      rw [hstep, ih]
      simp

/-- Fault isolation of dispatch: (1) for subscribers that record their own
invocation, every subscriber of the snapshot runs in order no matter which of
them raise failures; (2) after any subscriber's invocation — whatever its
outcome — the dispatch loop simply continues with the remaining subscribers,
and `runHandlers` always returns normally (its type propagates no failure);
(3) a failing invocation is caught exactly at its own fault boundary: its side
effects stand, the failure is logged to the sink, and nothing is rethrown. -/
def FaultIsolation (pairs : List (Nat × Option Fault)) (init : List Nat)
    (sink : List String) (label : String) (f : Fault) : Prop :=
  (runHandlers (pairs.map fun p => (label, recAct p.1 p.2))
      ⟨init, sink⟩).user = init ++ pairs.map Prod.fst ∧
  (∀ (σ : Type) (hd : String × (σ → σ × Option Fault))
      (rest : List (String × (σ → σ × Option Fault)))
      (s : DispatchState σ),
    runHandlers (hd :: rest) s = runHandlers rest (safeInvoke hd.1 hd.2 s)) ∧
  (∀ (σ : Type) (u : σ → σ) (s : DispatchState σ),
    safeInvoke label (fun x => (u x, some f)) s =
      { user := u s.user, sink := s.sink ++ [faultMsg label f] })

/-- Claim C4: any failure (std::exception or any other thrown value) raised by
an individual subscriber invocation is caught and swallowed at that
invocation's fault boundary; every subsequent subscriber of the same event is
still invoked, and the dispatch itself never propagates the failure. -/
theorem dispatch_fault_isolation (pairs : List (Nat × Option Fault))
    (init : List Nat) (sink : List String) (label : String) (f : Fault) :
    FaultIsolation pairs init sink label f := by
  refine ⟨runHandlers_user_all label pairs init sink,
    fun σ hd rest s => rfl, ?_⟩
  intro σ u s
  rfl

theorem dispatch_fault_isolation_witness :
    FaultIsolation
      [(0, some (Fault.stdExc "boom")), (1, none), (2, some Fault.unknown)]
      [] [] "CallbackHandler" (Fault.stdExc "boom") :=
  dispatch_fault_isolation
    [(0, some (Fault.stdExc "boom")), (1, none), (2, some Fault.unknown)]
    [] [] "CallbackHandler" (Fault.stdExc "boom")

/-- `AsyncEventCenter::ScheduledEvent` (lines 433-443): an execution time, the
type-erased payload, and the event type. `operator>` compares execution times
only, so with `std::greater` the `std::priority_queue` is a min-heap on
`executionTime`, ties broken arbitrarily. -/
structure ScheduledEvent where
  executionTime : Nat
  eventData : Nat
  eventType : Nat
deriving Repr, DecidableEq

/-- `m_scheduledQueue.push` (line 458). The priority queue is modelled by its
observable pop order: a list kept sorted by execution time (`top`/`pop` always
yield a minimal-time entry; among equal times the order is unspecified, and
this model keeps earlier-pushed entries first). -/
def heapPush (e : ScheduledEvent) : List ScheduledEvent →
    List ScheduledEvent
  | [] => [e]
  | x :: xs =>
    if e.executionTime < x.executionTime then e :: x :: xs
    else x :: heapPush e xs

/-- The handoff-drain loop (lines 454-461): push every pending event into the
heap and clear the buffer. -/
def mergePending (pending q : List ScheduledEvent) : List ScheduledEvent :=
  pending.foldl (fun q e => heapPush e q) q

def isDue (now : Nat) (e : ScheduledEvent) : Bool :=
  decide (e.executionTime ≤ now)

/-- The pop loop (lines 482-487): pop every heap entry whose execution time is
at most `now` into the dispatch list, leaving the rest queued. -/
def extractDue (now : Nat) (q : List ScheduledEvent) :
    List ScheduledEvent × List ScheduledEvent :=
  (q.takeWhile (isDue now), q.dropWhile (isDue now))

/-- One worker iteration's queue manipulation (`processEvents`, lines
449-488): merge the handoff buffer into the min-heap, then extract the due
events. The first component lists the events dispatched this iteration in
dispatch order (the loop at lines 490-493 dispatches them in pop order); the
second is the remaining queue. -/
def processIteration (now : Nat) (pending q : List ScheduledEvent) :
    List ScheduledEvent × List ScheduledEvent :=
  extractDue now (mergePending pending q)

/-- The heap's pop-order list is sorted by execution time. -/
def TimeSorted (l : List ScheduledEvent) : Prop :=
  List.Pairwise (fun a b => a.executionTime ≤ b.executionTime) l

instance (l : List ScheduledEvent) : Decidable (TimeSorted l) := by
  unfold TimeSorted
  infer_instance

theorem mem_heapPush {e y : ScheduledEvent} {q : List ScheduledEvent} :
    y ∈ heapPush e q ↔ y = e ∨ y ∈ q := by
  induction q with
  | nil => simp [heapPush]
  | cons x xs ih =>
    by_cases h : e.executionTime < x.executionTime
    · simp only [heapPush, if_pos h, List.mem_cons]
    · simp only [heapPush, if_neg h, List.mem_cons, ih]
      tauto

theorem heapPush_timeSorted {e : ScheduledEvent} {q : List ScheduledEvent}
    (hq : TimeSorted q) : TimeSorted (heapPush e q) := by
  induction q with
  | nil => simp [heapPush, TimeSorted]
  | cons x xs ih =>
    rcases List.pairwise_cons.mp hq with ⟨hx, hxs⟩
    by_cases h : e.executionTime < x.executionTime
    · rw [TimeSorted]
      simp only [heapPush, if_pos h]
      refine List.pairwise_cons.mpr ⟨?_, hq⟩
      intro y hy
      rcases List.mem_cons.mp hy with rfl | hy'
      · omega
      · have := hx y hy'
        omega
    · rw [TimeSorted]
      simp only [heapPush, if_neg h]
      refine List.pairwise_cons.mpr ⟨?_, ih hxs⟩
      intro y hy
      rcases mem_heapPush.mp hy with rfl | hy'
      · omega
      · exact hx y hy'

theorem mergePending_timeSorted (pending : List ScheduledEvent) :
    ∀ {q : List ScheduledEvent}, TimeSorted q →
      TimeSorted (mergePending pending q) := by
  induction pending with
  | nil =>
    intro q hq
    exact hq
  | cons e rest ih =>
    intro q hq
    exact ih (heapPush_timeSorted hq)

theorem dropWhile_mem_gt {now : Nat} {l : List ScheduledEvent}
    (hl : TimeSorted l) {e : ScheduledEvent}
    (he : e ∈ l.dropWhile (isDue now)) : now < e.executionTime := by
  induction l with
  | nil => simp at he
  | cons x xs ih =>
    rcases List.pairwise_cons.mp hl with ⟨hx, hxs⟩
    rw [List.dropWhile_cons] at he
    by_cases h : x.executionTime ≤ now
    · rw [if_pos (by simp [isDue, h])] at he
      exact ih hxs he
    · rw [if_neg (by simp [isDue, h])] at he
      rcases List.mem_cons.mp he with rfl | he'
      · omega
      · have := hx e he'
        omega

/-- Ordered dispatch of due scheduled events, for one worker iteration: the
dispatched batch is sorted by execution time; an event with a strictly
earlier time is dispatched strictly earlier; every merged event due at `now`
is in the batch; every remaining event is not yet due; the remaining queue
stays sorted for the next iteration. -/
def DueDispatchOrdered (now : Nat) (pending q : List ScheduledEvent) :
    Prop :=
  TimeSorted (processIteration now pending q).1 ∧
  (∀ i j, (hi : i < (processIteration now pending q).1.length) →
      (hj : j < (processIteration now pending q).1.length) →
      ((processIteration now pending q).1.get ⟨i, hi⟩).executionTime <
        ((processIteration now pending q).1.get ⟨j, hj⟩).executionTime →
      i < j) ∧
  (∀ e ∈ mergePending pending q, e.executionTime ≤ now →
      e ∈ (processIteration now pending q).1) ∧
  (∀ e ∈ (processIteration now pending q).2, now < e.executionTime) ∧
  TimeSorted (processIteration now pending q).2

/-- Claim C5: in each worker iteration the batch of due events popped from the
min-heap (after merging the handoff buffer) is dispatched in non-decreasing
execution-time order; any two events both present at extraction with
`t(e₁) ≤ t(e₂)` are dispatched with `e₁` no later than `e₂` (strictly earlier
when `t(e₁) < t(e₂)`; ties in either order). -/
theorem scheduled_dispatch_order (now : Nat)
    (pending q : List ScheduledEvent) (hq : TimeSorted q) :
    DueDispatchOrdered now pending q := by
  have hm : TimeSorted (mergePending pending q) :=
    mergePending_timeSorted pending hq
  have htake : TimeSorted (processIteration now pending q).1 :=
    List.Pairwise.sublist (List.takeWhile_sublist _) hm
  refine ⟨htake, ?_, ?_, ?_, ?_⟩
  · intro i j hi hj hlt
    by_contra hij
    have hji : j ≤ i := Nat.le_of_not_lt hij
    rcases Nat.eq_or_lt_of_le hji with rfl | hji'
    · omega
    · have := (List.pairwise_iff_get.mp htake) ⟨j, hj⟩ ⟨i, hi⟩ hji'
      omega
  · intro e hme hdue
    have hsplit := List.takeWhile_append_dropWhile (p := isDue now)
      (l := mergePending pending q)
    rw [← hsplit] at hme
    rcases List.mem_append.mp hme with hin | hin
    · exact hin
    · have := dropWhile_mem_gt hm hin
      omega
  · intro e he
    exact dropWhile_mem_gt hm he
  · exact List.Pairwise.sublist (List.dropWhile_sublist _) hm

theorem scheduled_dispatch_order_witness :
    TimeSorted [⟨2, 0, 0⟩, ⟨7, 2, 0⟩] ∧
      DueDispatchOrdered 5 [⟨3, 1, 0⟩] [⟨2, 0, 0⟩, ⟨7, 2, 0⟩] :=
  ⟨by decide, scheduled_dispatch_order 5 [⟨3, 1, 0⟩]
    [⟨2, 0, 0⟩, ⟨7, 2, 0⟩] (by decide)⟩

/-- The claimed pruning-on-dispatch property at one input: after a dispatch
for an event type completes, the stored observed list for that type contains
no expired references that were present when the dispatch began. -/
def NoStaleAfterDispatch (alive : Nat → Bool) (k : TypeKey) (st : Registry) :
    Prop :=
  ∀ w, w ∈ weakPart st k → alive w = false →
    w ∉ weakPart (dispatchEventFull alive k st).2 k

/-- Claim C6 counterexample: a registry holding one expired observed reference
(handler id 7, not alive) for event type 0 still holds it after a dispatch for
type 0 completes — `dispatchEvent` reads a snapshot and never writes back, so
nothing is pruned during dispatch. -/
theorem dispatch_no_pruning_counterexample :
    ¬ NoStaleAfterDispatch (fun _ => false) 0
        (registerWeakHandler 0 7 Registry.empty) := by
  intro hcl
  have h7 : (7 : Nat) ∈ weakPart (registerWeakHandler 0 7 Registry.empty) 0 :=
    by decide
  exact hcl 7 h7 rfl h7

/-- Corrected stale-reference handling: a dispatch leaves the stored registry
untouched (expired observed references are skipped at invocation time, not
pruned), and the explicit shared_ptr unregister removes every expired observed
reference of the event type it operates on. -/
def StaleHandling (alive : Nat → Bool) (k : TypeKey) (h : Nat)
    (st : Registry) : Prop :=
  (dispatchEventFull alive k st).2 = st ∧
  (∀ w, Invocation.weak w ∈ dispatchEvent alive k st → alive w = true) ∧
  (∀ w ∈ weakPart (unregisterHandlerPtr alive k h st) k, alive w = true)

/-- Claim C6 (amended): expired observed references are never invoked (the
snapshot skips any reference that fails to upgrade) and are removed by the
explicit `unregisterHandler<T>(handler)` call; dispatch itself leaves the
stored observed list exactly as it was, pruning nothing. -/
theorem stale_reference_handling (alive : Nat → Bool) (k : TypeKey)
    (h : Nat) (st : Registry) : StaleHandling alive k h st := by
  refine ⟨rfl, ?_, ?_⟩
  · intro w hw
    simp only [dispatchEvent, List.mem_append, List.mem_map,
      List.mem_filter] at hw
    rcases hw with (⟨x, _, hx⟩ | ⟨x, ⟨_, hxa⟩, hx⟩) | ⟨x, _, hx⟩
    · exact absurd hx (by simp)
    · obtain rfl : x = w := by
        simpa using hx
      exact hxa
    · exact absurd hx (by simp)
  · intro w hw
    cases hfind : mfind k st.interfaceHandlers with
    | none =>
      rw [weakPart] at hw
      simp only [unregisterHandlerPtr, hfind] at hw
      simp [InterfaceHandlers.empty] at hw
    | some g =>
      rw [weakPart] at hw
      simp only [unregisterHandlerPtr, hfind, mfind_minsert_self,
        Option.getD_some] at hw
      have := (List.mem_filter.mp hw).2
      simp at this
      exact this.1

theorem stale_reference_handling_witness :
    StaleHandling (fun x => x == 9) 0 9
      (registerWeakHandler 0 7 (registerWeakHandler 0 9 Registry.empty)) :=
  stale_reference_handling (fun x => x == 9) 0 9
    (registerWeakHandler 0 7 (registerWeakHandler 0 9 Registry.empty))

/-- Remove the first element satisfying the predicate, leaving the rest. -/
def eraseFirstMatch (p : Nat → Bool) : List Nat → List Nat
  | [] => []
  | x :: xs => if p x then xs else x :: eraseFirstMatch p xs

/-- The claimed behavior at one input: `unregisterHandler<T>(handler)` removes
only the first identity-matching occurrence from the owned list, and only the
first matching (identity-equal or expired) occurrence from the observed list,
leaving further duplicates in place. -/
def RemovesOnlyFirstMatch (alive : Nat → Bool) (k : TypeKey) (h : Nat)
    (st : Registry) : Prop :=
  strongPart (unregisterHandlerPtr alive k h st) k =
      eraseFirstMatch (fun x => x == h) (strongPart st k) ∧
  weakPart (unregisterHandlerPtr alive k h st) k =
      eraseFirstMatch (fun x => !alive x || x == h) (weakPart st k)

/-- Claim C7 counterexample: with handler 5 registered twice as owned for type
0, `unregisterHandler<T>(handler 5)` empties the owned list instead of leaving
one occurrence — the erase-remove idiom removes every match. -/
theorem unregister_first_only_counterexample :
    ¬ RemovesOnlyFirstMatch (fun _ => true) 0 5
        (registerHandlerStrong 0 5 (registerHandlerStrong 0 5
          Registry.empty)) := by
  intro hcl
  exact absurd hcl.1 (by decide)

/-- Corrected duplicate-unregistration behavior: `unregisterHandler<T>(h)`
removes every owned occurrence equal to the handler and every observed
occurrence that is expired or equal to the handler, preserving the relative
order of the remaining entries. -/
def RemovesAllMatches (alive : Nat → Bool) (k : TypeKey) (h : Nat)
    (st : Registry) : Prop :=
  strongPart (unregisterHandlerPtr alive k h st) k =
      (strongPart st k).filter (fun x => x ≠ h) ∧
  weakPart (unregisterHandlerPtr alive k h st) k =
      (weakPart st k).filter (fun x => alive x && x ≠ h)

/-- Claim C7 (amended): when the same handler is registered more than once,
`unregisterHandler<T>(handler)` removes every matching occurrence from the
owned list and every matching-or-expired occurrence from the observed list
(the two lists treated independently); no duplicate survives. -/
theorem unregister_removes_all_matches (alive : Nat → Bool) (k : TypeKey)
    (h : Nat) (st : Registry) : RemovesAllMatches alive k h st := by
  cases hfind : mfind k st.interfaceHandlers with
  | none =>
    constructor
    · rw [strongPart]
      simp only [unregisterHandlerPtr, hfind]
      rw [strongPart, hfind]
      simp [InterfaceHandlers.empty]
    · rw [weakPart]
      simp only [unregisterHandlerPtr, hfind]
      rw [weakPart, hfind]
      simp [InterfaceHandlers.empty]
  | some g =>
    constructor
    · rw [strongPart]
      simp only [unregisterHandlerPtr, hfind, mfind_minsert_self,
        Option.getD_some]
      rw [strongPart, hfind]
      rfl
    · rw [weakPart]
      simp only [unregisterHandlerPtr, hfind, mfind_minsert_self,
        Option.getD_some]
      rw [weakPart, hfind]
      rfl

theorem unregister_removes_all_matches_witness :
    RemovesAllMatches (fun _ => true) 0 5
      (registerHandlerStrong 0 5 (registerHandlerStrong 0 5
        Registry.empty)) :=
  unregister_removes_all_matches (fun _ => true) 0 5
    (registerHandlerStrong 0 5 (registerHandlerStrong 0 5 Registry.empty))

/-- `SyncEventCenter::publish_event` (lines 302-306): dispatch inline on the
calling thread against the synchronous center's registry. -/
def syncPublishEvent (alive : Nat → Bool) (k : TypeKey) (st : Registry) :
    List Invocation × Registry :=
  dispatchEventFull alive k st

/-- Modelled from the spec: `SyncEventCenter` (lines 268-312) declares no
timed publication members (the delayed and time-point variants exist only on
`AsyncEventCenter`), and the spec (sections 4.5 and 7) defines a timed
publication on the synchronous center as a silent no-op: the call returns
normally, no handler is invoked for the event, and the center's state is
unchanged. -/
def syncPublishEventDelayed (_delay : Nat) (_k : TypeKey) (_payload : Nat)
    (st : Registry) : List Invocation × Registry :=
  ([], st)

/-- Modelled from the spec: the time-point variant of the timed publication on
the synchronous center, with the same silent no-op contract. -/
def syncPublishEventAt (_t : Nat) (_k : TypeKey) (_payload : Nat)
    (st : Registry) : List Invocation × Registry :=
  ([], st)

/-- A timed publication on the synchronous center returns normally, invokes no
handler, and leaves the registry unchanged. -/
def TimedSyncSilentNoOp (delay t : Nat) (k : TypeKey) (payload : Nat)
    (st : Registry) : Prop :=
  (syncPublishEventDelayed delay k payload st).1 = [] ∧
  (syncPublishEventDelayed delay k payload st).2 = st ∧
  (syncPublishEventAt t k payload st).1 = [] ∧
  (syncPublishEventAt t k payload st).2 = st

/-- Claim C8: calling a timed publication variant (delayed or at a time point)
on the synchronous center is a silent no-op — the call returns normally, no
handler is ever invoked for that event, and the center's state is unchanged. -/
theorem timed_sync_publication_no_op (delay t : Nat) (k : TypeKey)
    (payload : Nat) (st : Registry) :
    TimedSyncSilentNoOp delay t k payload st :=
  ⟨rfl, rfl, rfl, rfl⟩

theorem timed_sync_publication_no_op_witness :
    TimedSyncSilentNoOp 100 7 0 42 (applySeq [Op.regCallback 0 5]) :=
  timed_sync_publication_no_op 100 7 0 42 (applySeq [Op.regCallback 0 5])

theorem unregisterHandler_spec {st : Registry} (hi : Inv st) {h : Handle}
    {k : TypeKey} (hrev : mfind h st.handleToEventTypeMap = some k) :
    mfind h (unregisterHandler h st).handleToEventTypeMap = none ∧
    (∀ h2, h2 ≠ h → mfind h2 (unregisterHandler h st).handleToEventTypeMap =
      mfind h2 st.handleToEventTypeMap) ∧
    (mfind h (callbackSubscribers st k)).isSome = true ∧
    mfind h (callbackSubscribers (unregisterHandler h st) k) = none ∧
    (∀ k2 h2, (k2 = k → h2 ≠ h) →
      mfind h2 (callbackSubscribers (unregisterHandler h st) k2) =
        mfind h2 (callbackSubscribers st k2)) ∧
    (unregisterHandler h st).interfaceHandlers = st.interfaceHandlers := by
  obtain ⟨inner0, hcb0, hin0⟩ := hi.rev_to_cb h k hrev
  have hu := unregisterHandler_eq_of_some hrev
  have hcbs : callbackSubscribers st k = inner0 := by
    rw [callbackSubscribers, hcb0]
    rfl
  have hcbs2 : ∀ k2, callbackSubscribers (unregisterHandler h st) k2 =
      if k2 = k then merase h inner0 else callbackSubscribers st k2 := by
    intro k2
    rw [callbackSubscribers, hu]
    show (mfind k2 (minsert k (merase h ((mfind k st.callbackHandlers).getD []))
      st.callbackHandlers)).getD [] = _
    rw [hcb0]
    by_cases hk2 : k2 = k
    · subst hk2
      rw [if_pos rfl, mfind_minsert_self]
      rfl
    · rw [if_neg hk2, mfind_minsert_ne _ _ hk2]
      rfl
  refine ⟨?_, ?_, ?_, ?_, ?_, ?_⟩
  · rw [hu]
    exact mfind_merase_self _ _
  · intro h2 hne
    rw [hu]
    exact mfind_merase_ne _ hne
  · rw [hcbs]
    exact hin0
  · rw [hcbs2 k, if_pos rfl]
    exact mfind_merase_self _ _
  · intro k2 h2 hcond
    rw [hcbs2 k2]
    by_cases hk2 : k2 = k
    · rw [if_pos hk2, hk2, hcbs]
      exact mfind_merase_ne _ (hcond hk2)
    · rw [if_neg hk2]
  · rw [hu]

/-- The frame of `unregisterAllHandlers<T>`: with `st` the current state and
`st1` the state after the sweep of `tK`, every other event type `uK` keeps its
interface-handler group and callback map, every handle indexed to `uK` stays
indexed, and a later `unregisterHandler` on such a handle still removes
exactly its entry; meanwhile `tK`'s group, map and reverse-index entries are
dropped. -/
def UnregisterAllFrame (ops : List Op) (tK uK : TypeKey) : Prop :=
  let st := applySeq ops
  let st1 := unregisterAllHandlers tK st
  mfind uK st1.interfaceHandlers = mfind uK st.interfaceHandlers ∧
  mfind uK st1.callbackHandlers = mfind uK st.callbackHandlers ∧
  (∀ h, mfind h st.handleToEventTypeMap = some uK →
      mfind h st1.handleToEventTypeMap = some uK) ∧
  mfind tK st1.interfaceHandlers = none ∧
  mfind tK st1.callbackHandlers = none ∧
  (∀ h, mfind h st.handleToEventTypeMap = some tK →
      mfind h st1.handleToEventTypeMap = none) ∧
  (∀ h, mfind h st.handleToEventTypeMap = some uK →
      mfind h (unregisterHandler h st1).handleToEventTypeMap = none ∧
      (∀ h2, h2 ≠ h →
        mfind h2 (unregisterHandler h st1).handleToEventTypeMap =
          mfind h2 st1.handleToEventTypeMap) ∧
      (mfind h (callbackSubscribers st1 uK)).isSome = true ∧
      mfind h (callbackSubscribers (unregisterHandler h st1) uK) = none ∧
      (∀ k2 h2, (k2 = uK → h2 ≠ h) →
        mfind h2 (callbackSubscribers (unregisterHandler h st1) k2) =
          mfind h2 (callbackSubscribers st1 k2)))

/-- Claim C9: `unregisterAllHandlers<T>()` leaves every other event type's
owned list, observed list and callback map unchanged, and every handle issued
for another type stays valid — a later `unregisterHandler` on it still removes
exactly its entry; only `T`'s collections and `T`'s reverse-index entries are
dropped. -/
theorem unregister_all_frame (ops : List Op) (tK uK : TypeKey)
    (hne : tK ≠ uK) : UnregisterAllFrame ops tK uK := by
  have hi := inv_applySeq ops
  have hi1 : Inv (unregisterAllHandlers tK (applySeq ops)) :=
    inv_unregisterAllHandlers hi tK
  have hneK : uK ≠ tK := fun hh => hne hh.symm
  cases hcb : mfind tK (applySeq ops).callbackHandlers with
  | none =>
    have hrevcase : ∀ h, mfind h (applySeq ops).handleToEventTypeMap =
        some tK → False := by
      intro h hh
      obtain ⟨inner, hcbi, _⟩ := hi.rev_to_cb h tK hh
      rw [hcb] at hcbi
      exact Option.noConfusion hcbi
    have hfields : unregisterAllHandlers tK (applySeq ops) =
        { applySeq ops with
            interfaceHandlers := merase tK (applySeq ops).interfaceHandlers }
        := by
      simp [unregisterAllHandlers, hcb]
    refine ⟨?_, ?_, ?_, ?_, ?_, ?_, ?_⟩
    · rw [hfields]
      exact mfind_merase_ne _ hneK
    · rw [hfields]
    · intro h hh
      rw [hfields]
      exact hh
    · rw [hfields]
      exact mfind_merase_self _ _
    · rw [hfields]
      exact hcb
    · intro h hh
      exact absurd hh (fun hx => hrevcase h hx)
    · intro h hh
      have hrev1 : mfind h (unregisterAllHandlers tK
          (applySeq ops)).handleToEventTypeMap = some uK := by
        rw [hfields]
        exact hh
      obtain ⟨a, b, c, d, e, _⟩ := unregisterHandler_spec hi1 hrev1
      exact ⟨a, b, c, d, e⟩
  | some inner =>
    have hfields : unregisterAllHandlers tK (applySeq ops) =
        { applySeq ops with
            interfaceHandlers := merase tK (applySeq ops).interfaceHandlers
            callbackHandlers := merase tK (applySeq ops).callbackHandlers
            handleToEventTypeMap :=
              meraseAll inner (applySeq ops).handleToEventTypeMap } := by
      simp [unregisterAllHandlers, hcb]
    have hnotmem : ∀ h, mfind h (applySeq ops).handleToEventTypeMap =
        some uK → ∀ p ∈ inner, p.1 ≠ h := by
      intro h hh p hp hq
      have hmem : (mfind h inner).isSome = true := by
        have hpm : (p.1, p.2) ∈ inner := hp
        rw [hq] at hpm
        exact mfind_isSome_of_mem hpm
      have := hi.cb_to_rev tK inner hcb h hmem
      rw [hh] at this
      exact hneK (Option.some.inj this)
    refine ⟨?_, ?_, ?_, ?_, ?_, ?_, ?_⟩
    · rw [hfields]
      exact mfind_merase_ne _ hneK
    · rw [hfields]
      exact mfind_merase_ne _ hneK
    · intro h hh
      rw [hfields]
      show mfind h (meraseAll inner
        (applySeq ops).handleToEventTypeMap) = some uK
      rw [mfind_meraseAll_of_not_mem (hnotmem h hh)]
      exact hh
    · rw [hfields]
      exact mfind_merase_self _ _
    · rw [hfields]
      exact mfind_merase_self _ _
    · intro h hh
      obtain ⟨inner1, hcbi, hin1⟩ := hi.rev_to_cb h tK hh
      rw [hcb] at hcbi
      obtain rfl := Option.some.inj hcbi
      rw [hfields]
      exact mfind_meraseAll_of_mem hin1
    · intro h hh
      have hrev1 : mfind h (unregisterAllHandlers tK
          (applySeq ops)).handleToEventTypeMap = some uK := by
        rw [hfields]
        show mfind h (meraseAll inner
          (applySeq ops).handleToEventTypeMap) = some uK
        rw [mfind_meraseAll_of_not_mem (hnotmem h hh)]
        exact hh
      obtain ⟨a, b, c, d, e, _⟩ := unregisterHandler_spec hi1 hrev1
      exact ⟨a, b, c, d, e⟩

theorem unregister_all_frame_witness :
    UnregisterAllFrame [Op.regCallback 1 5, Op.regCallback 2 6,
      Op.regStrong 2 8] 2 1 :=
  unregister_all_frame [Op.regCallback 1 5, Op.regCallback 2 6,
    Op.regStrong 2 8] 2 1 (by decide)

/-- The two process-wide singletons: `SyncEventCenter` (lines 268-312) and
`AsyncEventCenter` (lines 319-509) are distinct classes with distinct static
instances, each owning its own `EventRegistry` base state. -/
structure World where
  syncCenter : Registry
  asyncCenter : Registry
deriving Repr, DecidableEq

def World.empty : World := ⟨Registry.empty, Registry.empty⟩

/-- `registerStaticEventHandler<TEvent>()` (lines 597-602): registers the
type's static `handle` with `EventCenter::instance()`, where `EventCenter` is
the alias for `AsyncEventCenter` (line 512) — the synchronous center is not
touched. -/
def registerStaticEventHandler (k : TypeKey) (c : Nat) (w : World) :
    Handle × World :=
  let r := registerHandlerCallback k c w.asyncCenter
  (r.1, { w with asyncCenter := r.2 })

/-- A registration performed on the synchronous center
(`SyncEventCenter::instance().registerHandler<TEvent>(...)`). -/
def syncRegisterCallback (k : TypeKey) (c : Nat) (w : World) :
    Handle × World :=
  let r := registerHandlerCallback k c w.syncCenter
  (r.1, { w with syncCenter := r.2 })

/-- `publish_event_sync` (lines 526-530): dispatch on
`SyncEventCenter::instance()`, i.e. against the synchronous center's
registry. -/
def publishEventSyncInvocations (alive : Nat → Bool) (k : TypeKey)
    (w : World) : List Invocation :=
  dispatchEvent alive k w.syncCenter

/-- An asynchronous publication's eventual dispatch (worker loop line 492)
runs against `AsyncEventCenter::instance()`'s registry. -/
def publishEventAsyncInvocations (alive : Nat → Bool) (k : TypeKey)
    (w : World) : List Invocation :=
  dispatchEvent alive k w.asyncCenter

/-- Independence of the two singletons: a static/async registration leaves the
synchronous registry untouched and changes nothing `publish_event_sync`
dispatches; symmetrically a sync-side registration leaves the asynchronous
registry untouched and changes nothing an async publication dispatches; and
starting from empty centers, registering only on the async center leaves
`publish_event_sync` dispatching nothing at all. -/
def CentersIndependent (alive : Nat → Bool) (k k2 : TypeKey) (c : Nat)
    (w : World) : Prop :=
  (registerStaticEventHandler k c w).2.syncCenter = w.syncCenter ∧
  (∀ kq, publishEventSyncInvocations alive kq
      (registerStaticEventHandler k c w).2 =
    publishEventSyncInvocations alive kq w) ∧
  (syncRegisterCallback k c w).2.asyncCenter = w.asyncCenter ∧
  (∀ kq, publishEventAsyncInvocations alive kq
      (syncRegisterCallback k c w).2 =
    publishEventAsyncInvocations alive kq w) ∧
  publishEventSyncInvocations alive k2
      (registerStaticEventHandler k c World.empty).2 = [] ∧
  publishEventAsyncInvocations alive k2
      (syncRegisterCallback k c World.empty).2 = []

/-- Claim C10: the synchronous and asynchronous centers are distinct
singletons with independent registries — a subscriber registered on the async
center (including via `registerStaticEventHandler`, which registers only with
the async `EventCenter`) is never invoked by `publish_event_sync`, and a
subscriber registered on the sync center is never invoked by an asynchronous
publication. -/
theorem centers_independent (alive : Nat → Bool) (k k2 : TypeKey) (c : Nat)
    (w : World) : CentersIndependent alive k k2 c w := by
  refine ⟨rfl, fun kq => rfl, rfl, fun kq => rfl, ?_, ?_⟩
  · show dispatchEvent alive k2 Registry.empty = []
    simp [dispatchEvent, strongPart, weakPart, callbackPart, Registry.empty,
      mfind, InterfaceHandlers.empty]
  · show dispatchEvent alive k2 Registry.empty = []
    simp [dispatchEvent, strongPart, weakPart, callbackPart, Registry.empty,
      mfind, InterfaceHandlers.empty]

theorem centers_independent_witness :
    CentersIndependent (fun _ => true) 0 0 5
      (registerStaticEventHandler 1 4 World.empty).2 :=
  centers_independent (fun _ => true) 0 0 5
    (registerStaticEventHandler 1 4 World.empty).2

end EventSystem
